import Mathlib

/-
Shallow embedding of src/src/server/pkg/storage/gc/client.go.

The metadata store consists of the two tables created by initializeDb:
  chunks(chunk text primary key, deleting timestamp)
  refs(sourcetype reftype, source text, chunk text, primary key(sourcetype, source, chunk))
Timestamps are modelled as natural numbers; `now()` is passed in explicitly.
The Server collaborator (FlushDeletes / DeleteChunks) is modelled as a
function parameter whose calls are recorded in the outcome, and the
database driver's row scanning is modelled by a `scan` parameter so that a
row whose `cursor.Scan` fails can be represented (as `none`).
-/

namespace Gc

/-- A chunk identified by its content hash (Go type `chunk.Chunk`). -/
structure Chunk where
  hash : String
  deriving DecidableEq

/-- A reference-graph edge (Go type `Reference` in client.go). -/
structure Reference where
  sourcetype : String
  source : String
  chunk : Chunk
  deriving DecidableEq

/-- A row of the `chunks` table: hash plus the nullable `deleting` timestamp. -/
structure ChunkRow where
  chunk : String
  deleting : Option Nat
  deriving DecidableEq

/-- The state of the metadata store: the `chunks` and `refs` tables.
Rows are kept in insertion order; primary keys make rows unique in any
state reachable through the operations below. -/
structure DB where
  chunks : List ChunkRow
  refs : List Reference
  deriving DecidableEq

/-- Database/protocol errors surfaced by the operations. -/
inductive GcErr where
  | duplicateInput
  | uniqueViolation
  | invalidEnum
  | flusherErr
  deriving DecidableEq

/-- Result of a client call or of a Server (flusher) call. -/
inductive CallResult where
  | ok
  | err (e : GcErr)
  deriving DecidableEq

/-- The `reftype` enum of the schema: 'chunk', 'job', 'semantic'. -/
def validReftype (s : String) : Prop :=
  s = "chunk" ∨ s = "job" ∨ s = "semantic"

instance (s : String) : Decidable (validReftype s) := by
  unfold validReftype; infer_instance

/-- Lookup of a row of the `chunks` table by primary key. -/
def DB.findChunk (db : DB) (h : String) : Option ChunkRow :=
  db.chunks.find? (fun r => r.chunk == h)

/-- Whether the chunk `h` currently has a non-NULL `deleting` timestamp. -/
def deletingIn (db : DB) (h : String) : Bool :=
  match db.findChunk h with
  | some row => row.deleting.isSome
  | none => false

/-- The row produced for hash `h` by the `added_chunks` CTE of ReserveChunks:
`insert ... on conflict (chunk) do update set chunk = excluded.chunk
returning chunk, deleting` returns the existing `deleting` value for a
conflicting row and NULL for a fresh row. -/
def addedChunkRow (db : DB) (h : String) : ChunkRow :=
  match db.findChunk h with
  | some row => ⟨h, row.deleting⟩
  | none => ⟨h, none⟩

/-- All rows returned by the `added_chunks` CTE, in VALUES order. -/
def addedChunks (db : DB) (hashes : List String) : List ChunkRow :=
  hashes.map (addedChunkRow db)

/-- The `chunks` table after the upsert of ReserveChunks: existing rows are
unchanged (the conflict update rewrites only the `chunk` column with the
same value), new hashes are appended with a NULL `deleting`. -/
def upsertChunks (db : DB) (hashes : List String) : List ChunkRow :=
  db.chunks ++ (hashes.filter (fun h => (db.findChunk h).isNone)).map (fun h => ⟨h, none⟩)

/-- The job reference inserted by the `added_refs` CTE for chunk `c`. -/
def jobRef (job : String) (c : Chunk) : Reference :=
  ⟨"job", job, c⟩

/-- The rows inserted by the `added_refs` CTE: a `(job, job_id, chunk)`
reference for every chunk of `added_chunks` whose `deleting` is NULL. -/
def reserveNewRefs (job : String) (hashes : List String) (db : DB) : List Reference :=
  ((addedChunks db hashes).filter (fun r => r.deleting.isNone)).map
    (fun r => jobRef job ⟨r.chunk⟩)

/-- The single SQL statement of ReserveChunks. Postgres raises an error when
the VALUES list repeats a hash (`ON CONFLICT DO UPDATE` cannot affect a row
twice) and when the `added_refs` insert (which has no ON CONFLICT clause)
collides with an existing row of `refs`; on error the statement has no
effect. On success it returns the new state together with the hashes whose
`deleting` was not NULL. -/
def reserveQuery (job : String) (hashes : List String) (db : DB) :
    Except GcErr (DB × List String) :=
  if ¬ hashes.Nodup then .error .duplicateInput
  else if ∃ r ∈ reserveNewRefs job hashes db, r ∈ db.refs then .error .uniqueViolation
  else .ok (⟨upsertChunks db hashes, db.refs ++ reserveNewRefs job hashes db⟩,
    ((addedChunks db hashes).filter (fun r => r.deleting.isSome)).map ChunkRow.chunk)

/-- Iteration state of `readChunksFromCursor`: rows already appended, rows
still to scan. A row whose `Scan` fails is modelled as `none`; the Go
function then returns nil, discarding the rows read so far, and the scan
error is not reported through any other channel. -/
def readChunksFromCursorAux : List Chunk → List (Option String) → List Chunk
  | acc, [] => acc
  | _, none :: _ => []
  | acc, some h :: rest => readChunksFromCursorAux (acc ++ [⟨h⟩]) rest

/-- Go function `readChunksFromCursor`. -/
def readChunksFromCursor (rows : List (Option String)) : List Chunk :=
  readChunksFromCursorAux [] rows

/-- The driver behaviour when every row scans successfully. -/
def okScan (rows : List String) : List (Option String) :=
  rows.map some

/-- A driver on which `cursor.Scan` fails on the first row of every result set. -/
def failScan (rows : List String) : List (Option String) :=
  none :: rows.map some

/-- A Server whose flusher calls succeed. -/
def serverOk : List Chunk → CallResult :=
  fun _ => .ok

/-- A Server whose flusher calls fail. -/
def serverFail : List Chunk → CallResult :=
  fun _ => .err .flusherErr

/-- Outcome of a `ReserveChunks` call: final database state, number of
transactions begun, the argument of each `FlushDeletes` call, and the
call's return value. -/
structure ReserveOutcome where
  db : DB
  txns : Nat
  flushCalls : List (List Chunk)
  result : CallResult
  deriving DecidableEq

/-- Go method `(gcc *Client) ReserveChunks`, parametrised by the driver's
scan behaviour and by the Server's `FlushDeletes`. An empty chunk list
returns immediately with no transaction. Otherwise one serializable
transaction runs `reserveQuery`; on error the call returns it. Scan
failures inside `readChunksFromCursor` are invisible to `cursor.Err()`, so
the transaction commits and `FlushDeletes` is called - unconditionally,
with whatever candidate list was read - and its result is returned. -/
def ReserveChunksWith (scan : List String → List (Option String))
    (flush : List Chunk → CallResult)
    (job : String) (chunks : List Chunk) (db : DB) : ReserveOutcome :=
  if chunks.length = 0 then ⟨db, 0, [], .ok⟩
  else
    match reserveQuery job (chunks.map Chunk.hash) db with
    | .error e => ⟨db, 1, [], .err e⟩
    | .ok (db2, rows) =>
      let chunksToFlush := readChunksFromCursor (scan rows)
      ⟨db2, 1, [chunksToFlush], flush chunksToFlush⟩

/-- `ReserveChunks` with a driver on which every row scans successfully. -/
def ReserveChunks (flush : List Chunk → CallResult)
    (job : String) (chunks : List Chunk) (db : DB) : ReserveOutcome :=
  ReserveChunksWith okScan flush job chunks db

/-- The COPY FROM of the `add` edges (`pq.CopyIn("refs", ...)`). COPY has no
ON CONFLICT handling: a row equal to an existing row of `refs`, or repeated
inside the batch, raises a unique violation; a `sourcetype` outside the
`reftype` enum is rejected. On success all rows are appended. -/
def copyInRefs (db : DB) (add : List Reference) : Except GcErr (List Reference) :=
  if ∃ r ∈ add, ¬ validReftype r.sourcetype then .error .invalidEnum
  else if (¬ add.Nodup) ∨ ∃ r ∈ add, r ∈ db.refs then .error .uniqueViolation
  else .ok (db.refs ++ add)

/-- The deletion predicate of the `del_refs` CTE: the row is listed in
`remove` by full primary key, or its (sourcetype, source) matches a
released job. -/
def delMatch (remove : List Reference) (releaseJobs : List String) (r : Reference) : Prop :=
  r ∈ remove ∨ (r.sourcetype = "job" ∧ r.source ∈ releaseJobs)

instance (remove : List Reference) (releaseJobs : List String) :
    DecidablePred (delMatch remove releaseJobs) := by
  intro r; unfold delMatch; infer_instance

/-- Number of rows of `refs` whose chunk column equals `h`. -/
def refCount (refs : List Reference) (h : String) : Nat :=
  refs.countP (fun r => r.chunk.hash == h)

/-- Outcome of an `UpdateReferences` call. -/
structure UpdateOutcome where
  db : DB
  txns : Nat
  deleteCalls : List (List Chunk)
  result : CallResult
  deriving DecidableEq

/-- Go method `(gcc *Client) UpdateReferences`, parametrised by the driver's
scan behaviour and by the Server's `DeleteChunks`. A transaction is begun
unconditionally, even on empty input. The `add` edges go in through COPY;
then one statement deletes the matching edges (`del_refs`), computes per
deleted chunk `count(*) - 1` over the join of the pre-deletion `refs`
snapshot with `del_refs` (so the two multiplicities multiply), and stamps
`deleting = now()` on the chunks-table rows where that count is zero,
returning them. The transaction commits and the call returns whatever
`DeleteChunks` returns on the read-back candidate list. -/
def UpdateReferencesWith (scan : List String → List (Option String))
    (del : List Chunk → CallResult)
    (add remove : List Reference) (releaseJobs : List String) (now : Nat) (db : DB) :
    UpdateOutcome :=
  match copyInRefs db add with
  | .error e => ⟨db, 1, [], .err e⟩
  | .ok refs2 =>
    if ∃ r ∈ remove, ¬ validReftype r.sourcetype then ⟨db, 1, [], .err .invalidEnum⟩
    else
      let delRefs := refs2.filter (fun r => decide (delMatch remove releaseJobs r))
      let kept := refs2.filter (fun r => ! decide (delMatch remove releaseJobs r))
      let delChunks := (delRefs.map (fun r => r.chunk.hash)).dedup
      let toDelete := delChunks.filter (fun h =>
        refCount refs2 h * refCount delRefs h == 1 && db.chunks.any (fun c => c.chunk == h))
      let chunks2 := db.chunks.map (fun c =>
        if c.chunk ∈ toDelete then ⟨c.chunk, some now⟩ else c)
      let chunksToDelete := readChunksFromCursor (scan toDelete)
      ⟨⟨chunks2, kept⟩, 1, [chunksToDelete], del chunksToDelete⟩

/-- `UpdateReferences` with a driver on which every row scans successfully. -/
def UpdateReferences (del : List Chunk → CallResult)
    (add remove : List Reference) (releaseJobs : List String) (now : Nat) (db : DB) :
    UpdateOutcome :=
  UpdateReferencesWith okScan del add remove releaseJobs now db

/-! Helper lemmas about the embedded operations. -/

theorem addedChunkRow_chunk (db : DB) (h : String) : (addedChunkRow db h).chunk = h := by
  unfold addedChunkRow
  cases db.findChunk h <;> rfl

theorem addedChunkRow_isSome (db : DB) (h : String) :
    (addedChunkRow db h).deleting.isSome = deletingIn db h := by
  unfold addedChunkRow deletingIn
  cases db.findChunk h <;> rfl

theorem addedChunkRow_isNone (db : DB) (h : String) :
    (addedChunkRow db h).deleting.isNone = ! deletingIn db h := by
  unfold addedChunkRow deletingIn
  cases hf : db.findChunk h with
  | none => rfl
  | some row =>
    show row.deleting.isNone = ! row.deleting.isSome
    cases row.deleting <;> rfl

/-- The hashes returned by the ReserveChunks statement are exactly the input
hashes whose chunk row is currently in the deleting state. -/
theorem reserveReported_eq (db : DB) (hs : List String) :
    ((addedChunks db hs).filter (fun r => r.deleting.isSome)).map ChunkRow.chunk
      = hs.filter (deletingIn db) := by
  unfold addedChunks
  rw [List.filter_map, List.map_map]
  have h1 : ((fun r : ChunkRow => r.deleting.isSome) ∘ addedChunkRow db) = deletingIn db := by
    funext h
    simp [Function.comp, addedChunkRow_isSome]
  have h2 : (ChunkRow.chunk ∘ addedChunkRow db) = id := by
    funext h
    simp [Function.comp, addedChunkRow_chunk]
  rw [h1, h2, List.map_id]

/-- The job references inserted by the `added_refs` CTE are exactly those for
the input hashes that are not currently in the deleting state. -/
theorem reserveNewRefs_eq (job : String) (hs : List String) (db : DB) :
    reserveNewRefs job hs db
      = (hs.filter (fun h => ! deletingIn db h)).map (fun h => jobRef job ⟨h⟩) := by
  unfold reserveNewRefs addedChunks
  rw [List.filter_map, List.map_map]
  have h1 : ((fun r : ChunkRow => r.deleting.isNone) ∘ addedChunkRow db)
      = (fun h => ! deletingIn db h) := by
    funext h
    simp [Function.comp, addedChunkRow_isNone]
  have h2 : ((fun r : ChunkRow => jobRef job ⟨r.chunk⟩) ∘ addedChunkRow db)
      = (fun h => jobRef job ⟨h⟩) := by
    funext h
    simp [Function.comp, addedChunkRow_chunk]
  rw [h1, h2]

theorem readChunksFromCursorAux_some (rows : List String) :
    ∀ acc, readChunksFromCursorAux acc (rows.map some) = acc ++ rows.map Chunk.mk := by
  induction rows with
  | nil => intro acc; simp [readChunksFromCursorAux]
  | cons h t ih =>
    intro acc
    simp only [List.map_cons, readChunksFromCursorAux, ih, List.append_assoc,
      List.singleton_append]

/-- With a fault-free driver the cursor read returns the result rows. -/
theorem readChunksFromCursor_okScan (rows : List String) :
    readChunksFromCursor (okScan rows) = rows.map Chunk.mk := by
  unfold readChunksFromCursor okScan
  rw [readChunksFromCursorAux_some]
  simp

/-- A row whose Scan fails makes `readChunksFromCursor` return nil whatever
was already read and whatever follows. -/
theorem readChunksFromCursorAux_fail (post : List (Option String)) :
    ∀ (pre : List String) (acc : List Chunk),
      readChunksFromCursorAux acc (pre.map some ++ none :: post) = [] := by
  intro pre
  induction pre with
  | nil => intro acc; rfl
  | cons h t ih => intro acc; simpa [readChunksFromCursorAux] using ih (acc ++ [⟨h⟩])

theorem map_mk_hash : ∀ l : List Chunk, l.map (fun c => Chunk.mk c.hash) = l
  | [] => rfl
  | c :: t => by rw [List.map_cons, map_mk_hash t]

/-- Characterisation of a successful ReserveChunks statement: with no repeated
input hash and no pre-existing job reference for the requested chunks, the
statement upserts the chunk rows, inserts the job references for the
non-deleting chunks and returns the deleting ones. -/
theorem reserveQuery_ok (job : String) (hashes : List String) (db : DB)
    (hnd : hashes.Nodup)
    (hnc : ∀ h ∈ hashes, jobRef job ⟨h⟩ ∉ db.refs) :
    reserveQuery job hashes db =
      .ok (⟨upsertChunks db hashes,
        db.refs ++ (hashes.filter (fun h => ! deletingIn db h)).map (fun h => jobRef job ⟨h⟩)⟩,
        hashes.filter (deletingIn db)) := by
  unfold reserveQuery
  rw [if_neg (not_not_intro hnd), if_neg, reserveNewRefs_eq, reserveReported_eq]
  rintro ⟨r, hr, hrdb⟩
  rw [reserveNewRefs_eq] at hr
  rcases List.mem_map.mp hr with ⟨h, hh, rfl⟩
  exact hnc h (List.mem_filter.mp hh).1 hrdb

/-- The chunks-table upsert of ReserveChunks never makes a chunk deleting:
a chunk not in the deleting state beforehand is still not deleting after. -/
theorem deletingIn_upsert (db : DB) (rfs : List Reference) (hs : List String) (h : String)
    (hdel : deletingIn db h = false) :
    deletingIn ⟨upsertChunks db hs, rfs⟩ h = false := by
  unfold deletingIn DB.findChunk at *
  unfold upsertChunks
  rw [List.find?_append]
  cases hf : db.chunks.find? (fun r => r.chunk == h) with
  | some row =>
    rw [hf] at hdel
    simpa [Option.or] using hdel
  | none =>
    rw [Option.or]
    cases hg : ((hs.filter (fun x => (db.findChunk x).isNone)).map
        (fun x => (⟨x, none⟩ : ChunkRow))).find? (fun r => r.chunk == h) with
    | none => rfl
    | some row =>
      rcases List.mem_map.mp (List.mem_of_find?_eq_some hg) with ⟨x, _, rfl⟩
      rfl

/-! Claim theorems. -/

/-- C1 counterexample: on an empty store, `ReserveChunks("jobA", [h1, h2])`
finds an empty deleting subset, yet the flusher IS called (with the empty
list) - `flushCalls = [[]]` records one `FlushDeletes` invocation - whereas
the claim states that when the subset is empty the flusher is not called. -/
theorem c1_counterexample :
    (ReserveChunks serverOk "jobA" [⟨"h1"⟩, ⟨"h2"⟩] ⟨[], []⟩).flushCalls = [[]] ∧
    (ReserveChunks serverOk "jobA" [⟨"h1"⟩, ⟨"h2"⟩] ⟨[], []⟩).result = .ok := by
  decide

/-- C2 code bug: chunk h is referenced by the two released jobs j1 and j2;
after `UpdateReferences([], [], [j1, j2])` its post-deletion reference count
is zero, but because the SQL computes `count(*) - 1` over the join of `refs`
with `del_refs` (2 * 2 - 1 = 3), h is neither stamped deleting nor handed to
DeleteChunks, contradicting the claim. -/
theorem c2_code_bug :
    refCount (UpdateReferences serverOk [] [] ["j1", "j2"] 7
        ⟨[⟨"h", none⟩], [⟨"job", "j1", ⟨"h"⟩⟩, ⟨"job", "j2", ⟨"h"⟩⟩]⟩).db.refs "h" = 0 ∧
    (UpdateReferences serverOk [] [] ["j1", "j2"] 7
        ⟨[⟨"h", none⟩], [⟨"job", "j1", ⟨"h"⟩⟩, ⟨"job", "j2", ⟨"h"⟩⟩]⟩).db.findChunk "h"
      = some ⟨"h", none⟩ ∧
    (UpdateReferences serverOk [] [] ["j1", "j2"] 7
        ⟨[⟨"h", none⟩], [⟨"job", "j1", ⟨"h"⟩⟩, ⟨"job", "j2", ⟨"h"⟩⟩]⟩).deleteCalls = [[]] := by
  decide

/-- C3 code bug: reserving the deleting chunk h2 flushes it and succeeds, but
the call ends with the store unchanged: `deleting` is never cleared and the
pending `(job, jobB, h2)` reference is never inserted - there is no second
transaction in the code. -/
theorem c3_code_bug :
    (ReserveChunks serverOk "jobB" [⟨"h2"⟩] ⟨[⟨"h2", some 3⟩], []⟩).result = .ok ∧
    (ReserveChunks serverOk "jobB" [⟨"h2"⟩] ⟨[⟨"h2", some 3⟩], []⟩).flushCalls = [[⟨"h2"⟩]] ∧
    (ReserveChunks serverOk "jobB" [⟨"h2"⟩] ⟨[⟨"h2", some 3⟩], []⟩).db
      = ⟨[⟨"h2", some 3⟩], []⟩ := by
  decide

/-- C4 code bug: `UpdateReferences` accepts an add edge whose target chunk h
is in the deleting state - the call succeeds and the reference row lands in
`refs` while h keeps its `deleting` timestamp, so the invariant is violated
and no `ReferenceToDeletingChunk` error exists in the code. -/
theorem c4_code_bug :
    (UpdateReferences serverOk [⟨"semantic", "s", ⟨"h"⟩⟩] [] [] 9
        ⟨[⟨"h", some 5⟩], []⟩).result = .ok ∧
    (⟨"semantic", "s", ⟨"h"⟩⟩ : Reference) ∈
      (UpdateReferences serverOk [⟨"semantic", "s", ⟨"h"⟩⟩] [] [] 9
        ⟨[⟨"h", some 5⟩], []⟩).db.refs ∧
    (UpdateReferences serverOk [⟨"semantic", "s", ⟨"h"⟩⟩] [] [] 9
        ⟨[⟨"h", some 5⟩], []⟩).db.findChunk "h" = some ⟨"h", some 5⟩ := by
  decide

/-- C5 code bug: on an empty store, adding a reference to the nonexistent
chunk h9 succeeds and inserts a dangling reference row - the schema has no
foreign key and the code performs no existence check, so no `MissingChunk`
error is surfaced and rows ARE inserted, contradicting the claim. -/
theorem c5_code_bug :
    (UpdateReferences serverOk [⟨"semantic", "c1", ⟨"h9"⟩⟩] [] [] 1 ⟨[], []⟩).result = .ok ∧
    (UpdateReferences serverOk [⟨"semantic", "c1", ⟨"h9"⟩⟩] [] [] 1 ⟨[], []⟩).db.refs
      = [⟨"semantic", "c1", ⟨"h9"⟩⟩] ∧
    (UpdateReferences serverOk [⟨"semantic", "c1", ⟨"h9"⟩⟩] [] [] 1 ⟨[], []⟩).db.chunks = [] := by
  decide

/-- C6 counterexample: the add edge (semantic, s, h) already exists in `refs`;
the COPY-based bulk insert has no ON CONFLICT handling, so the call fails
with a unique violation and rolls back, instead of silently ignoring the
duplicate and succeeding as the claim states. -/
theorem c6_counterexample :
    UpdateReferences serverOk [⟨"semantic", "s", ⟨"h"⟩⟩] [] [] 2
        ⟨[⟨"h", none⟩], [⟨"semantic", "s", ⟨"h"⟩⟩]⟩
      = ⟨⟨[⟨"h", none⟩], [⟨"semantic", "s", ⟨"h"⟩⟩]⟩, 1, [], .err .uniqueViolation⟩ := by
  decide

/-- C6 amended: an `UpdateReferences` call whose add list contains an edge
already present in the references table fails with a unique-violation error
from the COPY and leaves the store unchanged (the transaction is rolled
back); the duplicate is not ignored. -/
theorem c6_amended (del : List Chunk → CallResult) (add remove : List Reference)
    (releaseJobs : List String) (now : Nat) (db : DB)
    (henum : ∀ r ∈ add, validReftype r.sourcetype)
    (hdup : ∃ r ∈ add, r ∈ db.refs) :
    UpdateReferences del add remove releaseJobs now db
      = ⟨db, 1, [], .err .uniqueViolation⟩ := by
  have hc : copyInRefs db add = .error .uniqueViolation := by
    unfold copyInRefs
    rw [if_neg, if_pos (Or.inr hdup)]
    rintro ⟨r, hr, hbad⟩
    exact hbad (henum r hr)
  unfold UpdateReferences UpdateReferencesWith
  rw [hc]

/-- C6 witness: the amended claim at the concrete duplicate-add input. -/
theorem c6_witness :
    UpdateReferences serverOk [⟨"semantic", "s2", ⟨"h"⟩⟩] [] [] 4
        ⟨[⟨"h", none⟩], [⟨"semantic", "s2", ⟨"h"⟩⟩]⟩
      = ⟨⟨[⟨"h", none⟩], [⟨"semantic", "s2", ⟨"h"⟩⟩]⟩, 1, [], .err .uniqueViolation⟩ :=
  c6_amended serverOk [⟨"semantic", "s2", ⟨"h"⟩⟩] [] [] 4
    ⟨[⟨"h", none⟩], [⟨"semantic", "s2", ⟨"h"⟩⟩]⟩ (by decide) (by decide)

/-- C7 counterexample: `ReserveChunks("j", [h])` repeated on an initially
empty store: the second call hits the missing ON CONFLICT clause of the
`added_refs` insert and fails with a unique violation instead of
succeeding, so the call is not idempotent as the claim states. -/
theorem c7_counterexample :
    ReserveChunks serverOk "j" [⟨"h"⟩] (ReserveChunks serverOk "j" [⟨"h"⟩] ⟨[], []⟩).db
      = ⟨⟨[⟨"h", none⟩], [⟨"job", "j", ⟨"h"⟩⟩]⟩, 1, [], .err .uniqueViolation⟩ := by
  decide

/-- C8 counterexample: `UpdateReferences([], [], [])` on an empty store still
opens one database transaction (and calls DeleteChunks with the empty
list), whereas the claim states it opens no transaction. -/
theorem c8_counterexample :
    (UpdateReferences serverOk [] [] [] 0 ⟨[], []⟩).txns = 1 := by
  decide

/-- C9 counterexample: the last reference of chunk h is released and the RM
transaction commits (h is stamped deleting and the references are gone),
but the failing `DeleteChunks` propagates its error to the caller instead
of being logged and absorbed as the claim states. -/
theorem c9_counterexample :
    UpdateReferences serverFail [] [] ["j1"] 5 ⟨[⟨"h", none⟩], [⟨"job", "j1", ⟨"h"⟩⟩]⟩
      = ⟨⟨[⟨"h", some 5⟩], []⟩, 1, [[⟨"h"⟩]], .err .flusherErr⟩ := by
  decide

/-- C9 amended: once the COPY succeeds and the remove list is well typed, the
transaction commits irrespective of the flusher: the committed state and
the candidate list do not depend on what `DeleteChunks` returns, and the
call's result is exactly the flusher's result on that candidate list - so a
flusher error is propagated to the caller, not absorbed. -/
theorem c9_amended (del del2 : List Chunk → CallResult) (add remove : List Reference)
    (releaseJobs : List String) (now : Nat) (db : DB) (rs : List Reference)
    (hcopy : copyInRefs db add = .ok rs)
    (hrem : ∀ r ∈ remove, validReftype r.sourcetype) :
    ∃ l, (UpdateReferences del add remove releaseJobs now db).deleteCalls = [l] ∧
      (UpdateReferences del add remove releaseJobs now db).result = del l ∧
      (UpdateReferences del2 add remove releaseJobs now db).db
        = (UpdateReferences del add remove releaseJobs now db).db ∧
      (UpdateReferences del2 add remove releaseJobs now db).deleteCalls = [l] := by
  unfold UpdateReferences UpdateReferencesWith
  have hx : ¬ ∃ r ∈ remove, ¬ validReftype r.sourcetype := by
    rintro ⟨r, hr, hbad⟩
    exact hbad (hrem r hr)
  simp only [hcopy, if_neg hx]
  exact ⟨_, rfl, rfl, trivial, rfl⟩

/-- C9 witness: the amended claim at the concrete input of the
counterexample, with a failing and a succeeding flusher. -/
theorem c9_witness :
    ∃ l, (UpdateReferences serverFail [] [] ["j1"] 5
        ⟨[⟨"h", none⟩], [⟨"job", "j1", ⟨"h"⟩⟩]⟩).deleteCalls = [l] ∧
      (UpdateReferences serverFail [] [] ["j1"] 5
        ⟨[⟨"h", none⟩], [⟨"job", "j1", ⟨"h"⟩⟩]⟩).result = serverFail l ∧
      (UpdateReferences serverOk [] [] ["j1"] 5
        ⟨[⟨"h", none⟩], [⟨"job", "j1", ⟨"h"⟩⟩]⟩).db
        = (UpdateReferences serverFail [] [] ["j1"] 5
        ⟨[⟨"h", none⟩], [⟨"job", "j1", ⟨"h"⟩⟩]⟩).db ∧
      (UpdateReferences serverOk [] [] ["j1"] 5
        ⟨[⟨"h", none⟩], [⟨"job", "j1", ⟨"h"⟩⟩]⟩).deleteCalls = [l] :=
  c9_amended serverFail serverOk [] [] ["j1"] 5
    ⟨[⟨"h", none⟩], [⟨"job", "j1", ⟨"h"⟩⟩]⟩ [⟨"job", "j1", ⟨"h"⟩⟩] (by rfl) (by decide)

/-- C8 amended: `ReserveChunks` with an empty chunk list is a zero-transaction
no-op, but `UpdateReferences` with empty add, remove and release lists,
while leaving the tables unchanged, still opens (and commits) one
transaction and still calls `DeleteChunks` with the empty list, returning
its result. -/
theorem c8_amended (flush del : List Chunk → CallResult) (job : String) (now : Nat) (db : DB) :
    ReserveChunks flush job [] db = ⟨db, 0, [], .ok⟩ ∧
    UpdateReferences del [] [] [] now db = ⟨db, 1, [[]], del []⟩ := by
  constructor
  · rfl
  · have hc : copyInRefs db [] = .ok db.refs := by
      unfold copyInRefs
      simp
    unfold UpdateReferences UpdateReferencesWith
    have hx : ¬ ∃ r ∈ ([] : List Reference), ¬ validReftype r.sourcetype := by
      rintro ⟨r, hr, _⟩
      exact absurd hr (List.not_mem_nil r)
    have hdm : ∀ r : Reference, decide (delMatch [] [] r) = false := by
      intro r
      simp [delMatch]
    simp only [hc, if_neg hx, hdm, Bool.not_false, List.filter_true, List.filter_false,
      List.map_nil, List.dedup_nil, List.filter_nil, List.not_mem_nil, if_false]
    rw [List.map_id']
    rfl

/-- C10: a row whose `cursor.Scan` fails makes `readChunksFromCursor` return
nil - discarding the rows already read - without reporting the error; as a
consequence `ReserveChunks` still commits and reports success with an empty
`FlushDeletes` argument although h2 was a resurrection candidate, and
`UpdateReferences` commits (h is durably stamped deleting) and reports
success while `DeleteChunks` receives the empty list, so both flush and
delete intents are silently dropped. -/
theorem c10_scan_failure_drops_intents :
    (∀ (pre : List String) (post : List (Option String)),
      readChunksFromCursor (pre.map some ++ none :: post) = []) ∧
    ReserveChunksWith failScan serverOk "jobB" [⟨"h2"⟩] ⟨[⟨"h2", some 3⟩], []⟩
      = ⟨⟨[⟨"h2", some 3⟩], []⟩, 1, [[]], .ok⟩ ∧
    UpdateReferencesWith failScan serverOk [] [] ["j1"] 5
        ⟨[⟨"h", none⟩], [⟨"job", "j1", ⟨"h"⟩⟩]⟩
      = ⟨⟨[⟨"h", some 5⟩], []⟩, 1, [[]], .ok⟩ :=
  ⟨fun pre post => readChunksFromCursorAux_fail post pre [], by decide, by decide⟩

theorem filter_hash_map (p : String → Bool) (l : List Chunk) :
    ((l.map Chunk.hash).filter p).map Chunk.mk = l.filter (fun c => p c.hash) := by
  rw [List.filter_map, List.map_map]
  have hid : (Chunk.mk ∘ Chunk.hash) = (fun c : Chunk => c) := by
    funext c
    rfl
  rw [hid, List.map_id']
  rfl

/-- C1 amended: for a non-empty duplicate-free chunk list, in a state where
the job holds no prior reference to the requested chunks, `ReserveChunks`
runs one transaction that upserts a chunks-table row per requested chunk
and inserts a `(job, job_id, chunk)` reference exactly for the chunks whose
`deleting` was NULL; the deleting subset is handed to `FlushDeletes` - but
the flusher is called unconditionally, with the empty list when the subset
is empty, and its result is returned. -/
theorem c1_amended (flush : List Chunk → CallResult) (job : String)
    (chunks : List Chunk) (db : DB)
    (hne : chunks ≠ [])
    (hnd : (chunks.map Chunk.hash).Nodup)
    (hnc : ∀ c ∈ chunks, jobRef job c ∉ db.refs) :
    (ReserveChunks flush job chunks db).txns = 1 ∧
    (∀ c ∈ chunks, ∃ row ∈ (ReserveChunks flush job chunks db).db.chunks,
      row.chunk = c.hash) ∧
    (∀ c ∈ chunks, (jobRef job c ∈ (ReserveChunks flush job chunks db).db.refs ↔
      deletingIn db c.hash = false)) ∧
    (ReserveChunks flush job chunks db).flushCalls
      = [chunks.filter (fun c => deletingIn db c.hash)] ∧
    (ReserveChunks flush job chunks db).result
      = flush (chunks.filter (fun c => deletingIn db c.hash)) := by
  have hnc' : ∀ h ∈ chunks.map Chunk.hash, jobRef job ⟨h⟩ ∉ db.refs := by
    intro h hh
    rcases List.mem_map.mp hh with ⟨c, hc, rfl⟩
    exact hnc c hc
  have hlen : ¬ chunks.length = 0 := by
    simpa [List.length_eq_zero] using hne
  have ho : ReserveChunks flush job chunks db =
      ⟨⟨upsertChunks db (chunks.map Chunk.hash),
        db.refs ++ ((chunks.map Chunk.hash).filter (fun h => ! deletingIn db h)).map
          (fun h => jobRef job ⟨h⟩)⟩,
       1, [chunks.filter (fun c => deletingIn db c.hash)],
       flush (chunks.filter (fun c => deletingIn db c.hash))⟩ := by
    unfold ReserveChunks ReserveChunksWith
    rw [if_neg hlen, reserveQuery_ok job (chunks.map Chunk.hash) db hnd hnc']
    simp only [readChunksFromCursor_okScan, filter_hash_map]
  refine ⟨by rw [ho], ?_, ?_, by rw [ho], by rw [ho]⟩
  · intro c hc
    rw [ho]
    cases hf : db.findChunk c.hash with
    | some row =>
      refine ⟨row, List.mem_append_left _ (List.mem_of_find?_eq_some hf), ?_⟩
      have := List.find?_some hf
      simpa using this
    | none =>
      refine ⟨⟨c.hash, none⟩, List.mem_append_right _ ?_, rfl⟩
      apply List.mem_map_of_mem
      refine List.mem_filter.mpr ⟨List.mem_map_of_mem Chunk.hash hc, ?_⟩
      rw [hf]
      rfl
  · intro c hc
    rw [ho]
    constructor
    · intro hmem
      rcases List.mem_append.mp hmem with hl | hr
      · exact absurd hl (hnc c hc)
      · rcases List.mem_map.mp hr with ⟨h, hh, heq⟩
        have hch : h = c.hash := congrArg (fun r : Reference => r.chunk.hash) heq
        rcases List.mem_filter.mp hh with ⟨_, hb⟩
        rw [hch] at hb
        simpa using hb
    · intro hdel
      apply List.mem_append_right
      apply List.mem_map.mpr
      refine ⟨c.hash, List.mem_filter.mpr ⟨List.mem_map_of_mem Chunk.hash hc, ?_⟩, rfl⟩
      rw [hdel]
      rfl

/-- C1 witness: the amended claim at a store where h2 is deleting and h1 is
fresh, so the flushed subset is exactly the deleting one. -/
theorem c1_witness :
    (ReserveChunks serverOk "jobA" [⟨"h1"⟩, ⟨"h2"⟩] ⟨[⟨"h2", some 4⟩], []⟩).txns = 1 ∧
    (∀ c ∈ [(⟨"h1"⟩ : Chunk), ⟨"h2"⟩],
      ∃ row ∈ (ReserveChunks serverOk "jobA" [⟨"h1"⟩, ⟨"h2"⟩]
        ⟨[⟨"h2", some 4⟩], []⟩).db.chunks, row.chunk = c.hash) ∧
    (∀ c ∈ [(⟨"h1"⟩ : Chunk), ⟨"h2"⟩],
      (jobRef "jobA" c ∈ (ReserveChunks serverOk "jobA" [⟨"h1"⟩, ⟨"h2"⟩]
        ⟨[⟨"h2", some 4⟩], []⟩).db.refs ↔
       deletingIn ⟨[⟨"h2", some 4⟩], []⟩ c.hash = false)) ∧
    (ReserveChunks serverOk "jobA" [⟨"h1"⟩, ⟨"h2"⟩] ⟨[⟨"h2", some 4⟩], []⟩).flushCalls
      = [[(⟨"h1"⟩ : Chunk), ⟨"h2"⟩].filter
          (fun c => deletingIn ⟨[⟨"h2", some 4⟩], []⟩ c.hash)] ∧
    (ReserveChunks serverOk "jobA" [⟨"h1"⟩, ⟨"h2"⟩] ⟨[⟨"h2", some 4⟩], []⟩).result
      = serverOk ([(⟨"h1"⟩ : Chunk), ⟨"h2"⟩].filter
          (fun c => deletingIn ⟨[⟨"h2", some 4⟩], []⟩ c.hash)) :=
  c1_amended serverOk "jobA" [⟨"h1"⟩, ⟨"h2"⟩] ⟨[⟨"h2", some 4⟩], []⟩
    (by decide) (by decide) (by decide)

/-- C7 amended: repeating `ReserveChunks(j, S)` with the same arguments from
a state where no requested chunk is deleting and the job holds no prior
reference leaves the tables exactly as the first call left them, but the
second call is not a successful no-op: it fails with a unique violation on
the `added_refs` insert (which has no ON CONFLICT clause) and makes no
flusher call. -/
theorem c7_amended (flush : List Chunk → CallResult) (job : String)
    (chunks : List Chunk) (db : DB)
    (hne : chunks ≠ [])
    (hnd : (chunks.map Chunk.hash).Nodup)
    (hdel : ∀ c ∈ chunks, deletingIn db c.hash = false)
    (hnc : ∀ c ∈ chunks, jobRef job c ∉ db.refs) :
    (ReserveChunks flush job chunks db).result = flush [] ∧
    ReserveChunks flush job chunks ((ReserveChunks flush job chunks db).db)
      = ⟨(ReserveChunks flush job chunks db).db, 1, [], .err .uniqueViolation⟩ := by
  have hnc' : ∀ h ∈ chunks.map Chunk.hash, jobRef job ⟨h⟩ ∉ db.refs := by
    intro h hh
    rcases List.mem_map.mp hh with ⟨c, hc, rfl⟩
    exact hnc c hc
  have hdel' : ∀ h ∈ chunks.map Chunk.hash, deletingIn db h = false := by
    intro h hh
    rcases List.mem_map.mp hh with ⟨c, hc, rfl⟩
    exact hdel c hc
  have hlen : ¬ chunks.length = 0 := by
    simpa [List.length_eq_zero] using hne
  have hfilterAll : (chunks.map Chunk.hash).filter (fun h => ! deletingIn db h)
      = chunks.map Chunk.hash := by
    apply List.filter_eq_self.mpr
    intro h hh
    rw [hdel' h hh]
    rfl
  have hfilterNone : (chunks.map Chunk.hash).filter (deletingIn db) = [] := by
    apply List.filter_eq_nil_iff.mpr
    intro h hh
    simp [hdel' h hh]
  have hq := reserveQuery_ok job (chunks.map Chunk.hash) db hnd hnc'
  rw [hfilterAll, hfilterNone] at hq
  have ho : ReserveChunks flush job chunks db =
      ⟨⟨upsertChunks db (chunks.map Chunk.hash),
        db.refs ++ (chunks.map Chunk.hash).map (fun h => jobRef job ⟨h⟩)⟩,
       1, [[]], flush []⟩ := by
    unfold ReserveChunks ReserveChunksWith
    rw [if_neg hlen, hq]
    rfl
  refine ⟨by rw [ho], ?_⟩
  rw [ho]
  unfold ReserveChunks ReserveChunksWith
  rw [if_neg hlen]
  have herr : reserveQuery job (chunks.map Chunk.hash)
      ⟨upsertChunks db (chunks.map Chunk.hash),
        db.refs ++ (chunks.map Chunk.hash).map (fun h => jobRef job ⟨h⟩)⟩
      = .error .uniqueViolation := by
    unfold reserveQuery
    rw [if_neg (not_not_intro hnd), if_pos]
    obtain ⟨c0, hc0⟩ := List.exists_mem_of_ne_nil chunks hne
    refine ⟨jobRef job ⟨c0.hash⟩, ?_, ?_⟩
    · rw [reserveNewRefs_eq]
      apply List.mem_map.mpr
      refine ⟨c0.hash, List.mem_filter.mpr ⟨List.mem_map_of_mem Chunk.hash hc0, ?_⟩, rfl⟩
      rw [deletingIn_upsert db _ (chunks.map Chunk.hash) c0.hash (hdel c0 hc0)]
      rfl
    · exact List.mem_append_right _
        (List.mem_map_of_mem _ (List.mem_map_of_mem Chunk.hash hc0))
  rw [herr]

/-- C7 witness: the amended claim at a single fresh chunk on an empty store. -/
theorem c7_witness :
    (ReserveChunks serverOk "j" [⟨"h"⟩] ⟨[], []⟩).result = serverOk [] ∧
    ReserveChunks serverOk "j" [⟨"h"⟩] ((ReserveChunks serverOk "j" [⟨"h"⟩] ⟨[], []⟩).db)
      = ⟨(ReserveChunks serverOk "j" [⟨"h"⟩] ⟨[], []⟩).db, 1, [], .err .uniqueViolation⟩ :=
  c7_amended serverOk "j" [⟨"h"⟩] ⟨[], []⟩ (by decide) (by decide) (by decide) (by decide)

end Gc
